import Mathlib

/-! AthleticsUtils — verification of the performance↔points lookup,
scoring-table extractor, pace calculation engine and UI helpers.

Shallow embedding of the JavaScript sources of the AthleticsUtils repository.
Numbers are modelled as rationals (JS `number` arithmetic on the in-range
decimal values these calculators manipulate), performance strings stored in the
scoring dataset are modelled by their parsed numeric value where the code only
ever consumes `parseFloat` of them, and by `String` where the code keys on the
raw string.  Fallible operations return `Option`.
-/

namespace AthleticsUtils

/-! ## Scoring data model and loaders

The scoring dataset (§3 of the spec, produced by the extractor) is
`gender → category → eventKey → ordered list of (points, performance)`.
Entries are `(points, performance)` pairs exactly as in the minified JSON
(`[points, performance]`); the performance is modelled by its parsed numeric
value since `lookupPoints`/`lookupPerformance` consume it only through
`parseFloat`.
-/

/-- One scoring-table entry `[points, performance]`. -/
abbrev Entry := Int × ℚ

/-- Association list `eventKey → entries`: per-event association list. -/
abbrev EventTable := List (String × List Entry)

/-- Association list `category → events`. -/
abbrev CategoryTable := List (String × EventTable)

/-- Association list `gender → categories`. -/
abbrev ScoringData := List (String × CategoryTable)

/-- Modelled from the spec: `scoring-data-loader.js` is not among the provided
sources.  Per §4.4, `findCategory(gender, event)` "scans categories under a
gender for the one containing the event key". -/
def findCategory (data : ScoringData) (gender event : String) : Option String :=
  (data.lookup gender).bind fun cats =>
    (cats.find? fun c => (c.2.lookup event).isSome).map Prod.fst

/-- Modelled from the spec: `scoring-data-loader.js` is not among the provided
sources.  Per §4.4, `getEventData(gender, category, event)` "returns the
event's ordered (points, performance) list or an absent result". -/
def getEventData (data : ScoringData) (gender category event : String) :
    Option (List Entry) :=
  (data.lookup gender).bind fun cats =>
    (cats.lookup category).bind fun evs => evs.lookup event

/-- Modelled from the spec: `event-config-loader.js` is not among the provided
sources.  Per §4.5, `getHandTimingOffset(key)` returns the "seconds added to a
hand-timed performance to approximate fully-automatic timing, or absent".
The config is modelled as an association list from event key to offset. -/
abbrev EventOffsets := List (String × ℚ)

/-- Modelled from the spec (§4.5): offset lookup by event key. -/
def getHandTimingOffset (offsets : EventOffsets) (event : String) : Option ℚ :=
  offsets.lookup event

/-! ## Performance Lookup Calculator (`performance-lookup.js`) -/

/-- Source function `isFieldEvent` (performance-lookup.js): a field (distance) event is one
whose key, upper-cased, contains one of the eight field-event codes. -/
def distanceEventCodes : List String :=
  [ "LJ", "TJ", "SP", "DT", "HT", "JT", "PV", "HJ" ]

/-- Whether `pat` occurs as a contiguous slice of `s` (JS `String.prototype.includes`). -/
def containsSlice (pat : List Char) : List Char → Bool
  | [] => pat.isEmpty
  | c :: rest => pat.isPrefixOf (c :: rest) || containsSlice pat rest

/-- Test `event.toUpperCase().includes(code)` for some field-event code. -/
def isFieldEvent (event : String) : Bool :=
  distanceEventCodes.any fun code => containsSlice code.toList event.toUpper.toList

/-- Result object of `lookupPoints`:
`{points, exactMatch, closestPerformance, appliedOffset?, originalPerformance?}`. -/
structure PointsResult where
  points : Int
  exactMatch : Bool
  closestPerformance : ℚ
  appliedOffset : Option ℚ
  originalPerformance : Option ℚ
deriving Repr, DecidableEq

/-- The `lowerPointsEntry` update step of the `lookupPoints` scan: adopt the
candidate entry when no entry is tracked yet or its points are strictly
higher than the tracked entry's. -/
def updBest (best : Option Entry) (e : Entry) : Option Entry :=
  match best with
  | none => some e
  | some b => if e.1 > b.1 then some e else best

/-- The "user's performance beat this table entry" test of `lookupPoints`:
for distance events (`higher is better`) the table value is strictly smaller
than the user's, for time events (`lower is better`) strictly larger. -/
def beats (isDistance : Bool) (perfNum : ℚ) (e : Entry) : Bool :=
  if isDistance then decide (e.2 < perfNum) else decide (perfNum < e.2)

/-- The `for (const [points, perf] of eventData)` loop of `lookupPoints`:
returns `.inl e` as soon as an entry within `0.005` of `perfNum` is seen
(the early `return` of the exact-match case), else `.inr best` where `best`
tracks, among entries the user's performance beat, the first one attaining
the highest points. -/
def lookupScan (isDistance : Bool) (perfNum : ℚ) :
    List Entry → Option Entry → Sum Entry (Option Entry)
  | [], best => .inr best
  | (pts, perf) :: rest, best =>
    if |perf - perfNum| < 5/1000 then .inl (pts, perf)
    else
      lookupScan isDistance perfNum rest
        (if beats isDistance perfNum (pts, perf) then updBest best (pts, perf) else best)

/-- The fallback loop of `lookupPoints`/`lookupPerformance`: the entry with the
globally lowest points (first one attaining the minimum). -/
def lowestPointsEntry (l : List Entry) : Option Entry :=
  l.foldl (fun acc e =>
    match acc with
    | none => some e
    | some b => if e.1 < b.1 then some e else acc) none

/-- Source function `lookupPoints(gender, event, performance, isHandTimed)`
(performance-lookup.js lines 19–127).  The `performance` argument is the
parsed numeric value of the normalized performance string (`parseFloat` in the
source; a rational here, so the `isNaN` guard of the source is vacuous). -/
def lookupPoints (data : ScoringData) (offsets : EventOffsets)
    (gender event : String) (performance : ℚ) (isHandTimed : Bool) :
    Option PointsResult :=
  match findCategory data gender event with
  | none => none
  | some category =>
    match getEventData data gender category event with
    | none => none
    | some eventData =>
      if eventData.isEmpty then none
      else
        -- `if (isHandTimed) { const offset = ...; if (offset) { ... } }`
        -- (JS truthiness: a present but zero offset is not applied).
        let off : Option ℚ :=
          if isHandTimed then
            match getHandTimingOffset offsets event with
            | some o => if o = 0 then none else some o
            | none => none
          else none
        let perfNum := match off with
          | some o => performance + o
          | none => performance
        let isDistance := isFieldEvent event
        match lookupScan isDistance perfNum eventData none with
        | .inl e =>
          some { points := e.1, exactMatch := true, closestPerformance := e.2,
                 appliedOffset := off,
                 originalPerformance := off.map fun _ => performance }
        | .inr best =>
          match (match best with | some b => some b | none => lowestPointsEntry eventData) with
          | some e =>
            some { points := e.1, exactMatch := false, closestPerformance := e.2,
                   appliedOffset := off,
                   originalPerformance := off.map fun _ => performance }
          | none => none

/-- Result object of `lookupPerformance`:
`{performance, exactMatch, points, appliedOffset?, originalPerformance?}`. -/
structure PerfResult where
  performance : ℚ
  exactMatch : Bool
  points : Int
  appliedOffset : Option ℚ
  originalPerformance : Option ℚ
deriving Repr, DecidableEq

/-- JS `Math.round`: round half towards positive infinity. -/
def jsRound (q : ℚ) : Int := ⌊q + 1/2⌋

/-- JS `Number.prototype.toFixed(2)` followed by the re-parse into a number:
round to the nearest hundredth.  On values that are exact multiples of `1/100`
(the regime of the scoring tables and hand-timing offsets) this is exact. -/
def toFixed2 (q : ℚ) : ℚ := (jsRound (100 * q) : ℚ) / 100

/-- The `for (const [entryPoints, perf] of eventData)` loop of
`lookupPerformance`: stops at the first entry whose points equal the target
(returned first), while tracking the entry with the highest points strictly
below the target (returned second). -/
def perfScan (target : Int) :
    List Entry → Option Entry → Option Entry × Option Entry
  | [], lower => (none, lower)
  | (pts, perf) :: rest, lower =>
    if pts = target then (some (pts, perf), lower)
    else perfScan target rest (if pts < target then updBest lower (pts, perf) else lower)

/-- Source function `lookupPerformance(gender, event, points, isHandTimed)`
(performance-lookup.js lines 138–246). -/
def lookupPerformance (data : ScoringData) (offsets : EventOffsets)
    (gender event : String) (points : ℚ) (isHandTimed : Bool) :
    Option PerfResult :=
  let targetPoints := jsRound points
  match findCategory data gender event with
  | none => none
  | some category =>
    match getEventData data gender category event with
    | none => none
    | some eventData =>
      if eventData.isEmpty then none
      else
        let scanned := perfScan targetPoints eventData none
        let selected : Option Entry := match scanned.1 with
          | some e => some e
          | none => scanned.2
        match selected with
        | none =>
          -- score below every table entry: fall back to the lowest-points entry
          match lowestPointsEntry eventData with
          | some lowest =>
            let adj : Option (ℚ × ℚ) :=
              if isHandTimed then
                match getHandTimingOffset offsets event with
                | some o => if o = 0 then none else some (toFixed2 (lowest.2 - o), o)
                | none => none
              else none
            some { performance := (adj.map Prod.fst).getD lowest.2,
                   exactMatch := false, points := lowest.1,
                   appliedOffset := adj.map fun p => -p.2,
                   originalPerformance := adj.map fun _ => lowest.2 }
          | none => none
        | some sel =>
          let adj : Option (ℚ × ℚ) :=
            if isHandTimed then
              match getHandTimingOffset offsets event with
              | some o => if o = 0 then none else some (toFixed2 (sel.2 - o), o)
              | none => none
            else none
          some { performance := (adj.map Prod.fst).getD sel.2,
                 exactMatch := scanned.1.isSome, points := sel.1,
                 appliedOffset := adj.map fun p => -p.2,
                 originalPerformance := adj.map fun _ => sel.2 }

/-! ## Lemmas about the lookup scans -/

theorem foldl_updBest_some (l : List Entry) (b : Entry) :
    ∃ c, l.foldl updBest (some b) = some c ∧ (c = b ∨ c ∈ l) ∧ b.1 ≤ c.1 ∧
      ∀ e ∈ l, e.1 ≤ c.1 := by
  induction l generalizing b with
  | nil => exact ⟨b, rfl, Or.inl rfl, le_refl _, by simp⟩
  | cons e l ih =>
    show ∃ c, l.foldl updBest (updBest (some b) e) = some c ∧ _
    rw [updBest]
    by_cases h : e.1 > b.1
    · rw [if_pos h]
      obtain ⟨c, hc, hmem, hle, hall⟩ := ih e
      refine ⟨c, hc, ?_, le_of_lt (lt_of_lt_of_le h hle), ?_⟩
      · rcases hmem with h' | h'
        · exact Or.inr (by simp [h'])
        · exact Or.inr (by simp [h'])
      · intro x hx
        rcases List.mem_cons.mp hx with h' | h'
        · subst h'; exact hle
        · exact hall x h'
    · rw [if_neg h]
      obtain ⟨c, hc, hmem, hle, hall⟩ := ih b
      refine ⟨c, hc, ?_, hle, ?_⟩
      · rcases hmem with h' | h'
        · exact Or.inl h'
        · exact Or.inr (by simp [h'])
      · intro x hx
        rcases List.mem_cons.mp hx with h' | h'
        · subst h'; exact le_trans (le_of_not_lt h) hle
        · exact hall x h'

theorem foldl_updBest_none (l : List Entry) (hl : l ≠ []) :
    ∃ c, l.foldl updBest none = some c ∧ c ∈ l ∧ ∀ e ∈ l, e.1 ≤ c.1 := by
  match l with
  | [] => exact absurd rfl hl
  | e :: l =>
    show ∃ c, l.foldl updBest (updBest none e) = some c ∧ _
    rw [updBest]
    obtain ⟨c, hc, hmem, hle, hall⟩ := foldl_updBest_some l e
    refine ⟨c, hc, ?_, ?_⟩
    · rcases hmem with h' | h'
      · simp [h']
      · simp [h']
    · intro x hx
      rcases List.mem_cons.mp hx with h' | h'
      · subst h'; exact hle
      · exact hall x h'

theorem lowestPointsEntry_aux (l : List Entry) (b : Entry) :
    ∃ c, (l.foldl (fun acc e =>
        match acc with
        | none => some e
        | some b => if e.1 < b.1 then some e else acc) (some b)) = some c ∧
      (c = b ∨ c ∈ l) ∧ c.1 ≤ b.1 ∧ ∀ e ∈ l, c.1 ≤ e.1 := by
  induction l generalizing b with
  | nil => exact ⟨b, rfl, Or.inl rfl, le_refl _, by simp⟩
  | cons e l ih =>
    show ∃ c, l.foldl _ (if e.1 < b.1 then some e else some b) = some c ∧ _
    by_cases h : e.1 < b.1
    · rw [if_pos h]
      obtain ⟨c, hc, hmem, hle, hall⟩ := ih e
      refine ⟨c, hc, ?_, le_of_lt (lt_of_le_of_lt hle h), ?_⟩
      · rcases hmem with h' | h'
        · exact Or.inr (by simp [h'])
        · exact Or.inr (by simp [h'])
      · intro x hx
        rcases List.mem_cons.mp hx with h' | h'
        · subst h'; exact hle
        · exact hall x h'
    · rw [if_neg h]
      obtain ⟨c, hc, hmem, hle, hall⟩ := ih b
      refine ⟨c, hc, ?_, hle, ?_⟩
      · rcases hmem with h' | h'
        · exact Or.inl h'
        · exact Or.inr (by simp [h'])
      · intro x hx
        rcases List.mem_cons.mp hx with h' | h'
        · subst h'; exact le_trans hle (le_of_not_lt h)
        · exact hall x h'

theorem lowestPointsEntry_spec (l : List Entry) (hl : l ≠ []) :
    ∃ c, lowestPointsEntry l = some c ∧ c ∈ l ∧ ∀ e ∈ l, c.1 ≤ e.1 := by
  match l with
  | [] => exact absurd rfl hl
  | e :: l =>
    obtain ⟨c, hc, hmem, hle, hall⟩ := lowestPointsEntry_aux l e
    refine ⟨c, hc, ?_, ?_⟩
    · rcases hmem with h' | h'
      · simp [h']
      · simp [h']
    · intro x hx
      rcases List.mem_cons.mp hx with h' | h'
      · subst h'; exact hle
      · exact hall x h'

/-- When no table entry is within the exact-match tolerance, the scan of
`lookupPoints` runs to completion, folding the update step over exactly the
beaten entries. -/
theorem lookupScan_no_exact (isD : Bool) (p : ℚ) (l : List Entry)
    (acc : Option Entry) (h : ∀ e ∈ l, ¬(|e.2 - p| < 5/1000)) :
    lookupScan isD p l acc = .inr ((l.filter (beats isD p)).foldl updBest acc) := by
  induction l generalizing acc with
  | nil => rfl
  | cons e l ih =>
    obtain ⟨pts, perf⟩ := e
    have hne : ¬(|perf - p| < 5/1000) := h (pts, perf) (by simp)
    rw [lookupScan, if_neg hne, ih _ (fun x hx => h x (List.mem_cons_of_mem _ hx))]
    by_cases hb : beats isD p (pts, perf)
    · rw [if_pos hb, List.filter_cons_of_pos hb]
      rfl
    · rw [if_neg hb, List.filter_cons_of_neg (by simpa using hb)]

/-- Claim C1: for every gender/event whose table is found and every numeric
performance not within `0.005` of any table entry, `lookupPoints` returns,
with `exactMatch = false`, the points of the table entry with the highest
points among the entries the user's performance beat (table performance
strictly greater than the user's for time events, strictly less for distance
events); if the user's performance beats no table entry it returns the entry
with the globally lowest points. -/
theorem lookupPoints_between (data : ScoringData) (offsets : EventOffsets)
    (gender event : String) (p : ℚ) (category : String) (l : List Entry)
    (hcat : findCategory data gender event = some category)
    (hdata : getEventData data gender category event = some l)
    (hne : l ≠ [])
    (hnex : ∀ e ∈ l, ¬(|e.2 - p| < 5/1000)) :
    ∃ r, lookupPoints data offsets gender event p false = some r ∧
      r.exactMatch = false ∧
      (l.filter (beats (isFieldEvent event) p) ≠ [] →
        (r.points, r.closestPerformance) ∈ l.filter (beats (isFieldEvent event) p) ∧
        ∀ e ∈ l.filter (beats (isFieldEvent event) p), e.1 ≤ r.points) ∧
      (l.filter (beats (isFieldEvent event) p) = [] →
        (r.points, r.closestPerformance) ∈ l ∧ ∀ e ∈ l, r.points ≤ e.1) := by
  have hscan := lookupScan_no_exact (isFieldEvent event) p l none hnex
  have hemp : l.isEmpty = false := by simp [List.isEmpty_iff, hne]
  by_cases hB : l.filter (beats (isFieldEvent event) p) = []
  · obtain ⟨c, hc, hmem, hall⟩ := lowestPointsEntry_spec l hne
    refine ⟨⟨c.1, false, c.2, none, none⟩, ?_, rfl, fun h => absurd hB h, fun _ => ?_⟩
    · simp only [lookupPoints, hcat, hdata, hemp, hscan, hB, Bool.false_eq_true,
        if_false, List.foldl_nil, hc, Option.map_none']
    · exact ⟨by simpa using hmem, hall⟩
  · obtain ⟨c, hc, hmem, hall⟩ := foldl_updBest_none _ hB
    refine ⟨⟨c.1, false, c.2, none, none⟩, ?_, rfl, fun _ => ?_, fun h => absurd h hB⟩
    · simp only [lookupPoints, hcat, hdata, hemp, hscan, Bool.false_eq_true,
        if_false, hc, Option.map_none']
    · exact ⟨by simpa using hmem, hall⟩

/-- If some entry carries exactly the target points, the reverse-lookup scan
stops at the first such entry and reports it as the exact match. -/
theorem perfScan_exact (t : Int) (l : List Entry) (acc : Option Entry)
    (h : ∃ e ∈ l, e.1 = t) :
    ∃ e, (perfScan t l acc).1 = some e ∧ e ∈ l ∧ e.1 = t := by
  induction l generalizing acc with
  | nil => simp at h
  | cons hd rest ih =>
    obtain ⟨pts, perf⟩ := hd
    by_cases hpt : pts = t
    · exact ⟨(pts, perf), by rw [perfScan, if_pos hpt], by simp, hpt⟩
    · obtain ⟨e, he, he1⟩ := h
      rcases List.mem_cons.mp he with h' | h'
      · exact absurd (by rw [h'] at he1; exact he1) hpt
      · obtain ⟨e', h1, h2, h3⟩ := ih _ ⟨e, h', he1⟩
        exact ⟨e', by rwa [perfScan, if_neg hpt], List.mem_cons_of_mem _ h2, h3⟩

/-- If no entry carries exactly the target points, the reverse-lookup scan
returns no exact match and folds the update step over exactly the entries with
points strictly below the target. -/
theorem perfScan_no_exact (t : Int) (l : List Entry) (acc : Option Entry)
    (h : ∀ e ∈ l, e.1 ≠ t) :
    perfScan t l acc = (none, (l.filter fun e => decide (e.1 < t)).foldl updBest acc) := by
  induction l generalizing acc with
  | nil => rfl
  | cons hd rest ih =>
    obtain ⟨pts, perf⟩ := hd
    have hpt : pts ≠ t := h (pts, perf) (by simp)
    rw [perfScan, if_neg hpt, ih _ (fun x hx => h x (List.mem_cons_of_mem _ hx))]
    by_cases hlt : pts < t
    · rw [if_pos hlt, List.filter_cons_of_pos (by simpa using hlt)]
      rfl
    · rw [if_neg hlt, List.filter_cons_of_neg (by simpa using hlt)]

/-- Claim C2: for every gender/event whose table is found, `lookupPerformance`
rounds the requested points to the nearest whole number; an exact points match
returns that entry's performance with `exactMatch = true`; otherwise the entry
with the highest points strictly below the target is returned with
`exactMatch = false`; and if the target is below every entry's points, the
globally lowest-points entry's performance is returned. -/
theorem lookupPerformance_spec (data : ScoringData) (offsets : EventOffsets)
    (gender event : String) (p : ℚ) (category : String) (l : List Entry)
    (hcat : findCategory data gender event = some category)
    (hdata : getEventData data gender category event = some l)
    (hne : l ≠ []) :
    ∃ r, lookupPerformance data offsets gender event p false = some r ∧
      ((∃ e ∈ l, e.1 = jsRound p) →
        r.exactMatch = true ∧ r.points = jsRound p ∧
        ∃ e ∈ l, e.1 = jsRound p ∧ r.performance = e.2) ∧
      ((∀ e ∈ l, e.1 ≠ jsRound p) → (∃ e ∈ l, e.1 < jsRound p) →
        r.exactMatch = false ∧ (r.points, r.performance) ∈ l ∧
        r.points < jsRound p ∧ ∀ e ∈ l, e.1 < jsRound p → e.1 ≤ r.points) ∧
      ((∀ e ∈ l, jsRound p < e.1) →
        r.exactMatch = false ∧ (r.points, r.performance) ∈ l ∧
        ∀ e ∈ l, r.points ≤ e.1) := by
  have hemp : l.isEmpty = false := by simp [List.isEmpty_iff, hne]
  rcases hsc : perfScan (jsRound p) l none with ⟨ex, lo⟩
  by_cases hex : ∃ e ∈ l, e.1 = jsRound p
  · obtain ⟨e, he1, he2, he3⟩ := perfScan_exact (jsRound p) l none hex
    rw [hsc] at he1
    simp only at he1
    subst he1
    refine ⟨⟨e.2, true, e.1, none, none⟩, ?_, ?_, ?_, ?_⟩
    · simp only [lookupPerformance, hcat, hdata, hemp, hsc, Bool.false_eq_true,
        if_false, Option.map_none', Option.isSome_some, Option.getD_none,
        Option.getD_some]
    · exact fun _ => ⟨rfl, he3, e, he2, he3, rfl⟩
    · intro hno _; exact absurd he3 (hno e he2)
    · intro hall; exact absurd he3 (ne_of_gt (hall e he2))
  · have hnoex : ∀ e ∈ l, e.1 ≠ jsRound p := by
      intro e he
      exact fun h => hex ⟨e, he, h⟩
    have hform := perfScan_no_exact (jsRound p) l none hnoex
    rw [hsc] at hform
    have hex' : ex = none := congrArg Prod.fst hform
    have hlo : lo = (l.filter fun e => decide (e.1 < jsRound p)).foldl updBest none :=
      congrArg Prod.snd hform
    subst hex'
    by_cases hlow : (l.filter fun e => decide (e.1 < jsRound p)) = []
    · -- target below every entry: fall back to the lowest-points entry
      have hallgt : ∀ e ∈ l, jsRound p < e.1 := by
        intro e he
        rcases lt_trichotomy e.1 (jsRound p) with h | h | h
        · have hmem : e ∈ (l.filter fun e => decide (e.1 < jsRound p)) :=
            List.mem_filter.mpr ⟨he, by simpa using h⟩
          rw [hlow] at hmem
          simp at hmem
        · exact absurd h (hnoex e he)
        · exact h
      have hlo' : lo = none := by rw [hlo, hlow]; rfl
      subst hlo'
      obtain ⟨c, hc, hmem, hall⟩ := lowestPointsEntry_spec l hne
      refine ⟨⟨c.2, false, c.1, none, none⟩, ?_, ?_, ?_, ?_⟩
      · simp only [lookupPerformance, hcat, hdata, hemp, hsc, Bool.false_eq_true,
          if_false, Option.map_none', hc, Option.getD_none, Option.isSome_none]
      · exact fun h => absurd h hex
      · intro _ ⟨e, he, helt⟩; exact absurd helt (not_lt.mpr (le_of_lt (hallgt e he)))
      · exact fun _ => ⟨rfl, by simpa using hmem, hall⟩
    · obtain ⟨c, hc, hmem, hall⟩ := foldl_updBest_none _ hlow
      have hlo' : lo = some c := by rw [hlo, hc]
      subst hlo'
      have hcl : c ∈ l := (List.mem_filter.mp hmem).1
      have hclt : c.1 < jsRound p := by simpa using (List.mem_filter.mp hmem).2
      refine ⟨⟨c.2, false, c.1, none, none⟩, ?_, ?_, ?_, ?_⟩
      · simp only [lookupPerformance, hcat, hdata, hemp, hsc, Bool.false_eq_true,
          if_false, Option.map_none', Option.getD_none, Option.getD_some,
          Option.isSome_none]
      · exact fun h => absurd h hex
      · intro _ _
        refine ⟨rfl, by simpa using hcl, hclt, ?_⟩
        intro e he helt
        exact hall e (List.mem_filter.mpr ⟨he, by simpa using helt⟩)
      · intro hallgt; exact absurd hclt (not_lt.mpr (le_of_lt (hallgt c hcl)))

/-- Claim C3: hand-timing offsets are sign-inverted between the two lookup
directions.  With an offset `o` configured for the event, `lookupPoints` with
`isHandTimed = true` behaves like the plain lookup of `performance + o` except
that it reports `appliedOffset = o` and `originalPerformance` = the unadjusted
input, while `lookupPerformance` with `isHandTimed = true` behaves like the
plain reverse lookup except that it subtracts `o` from the performance it
found (through the `toFixed(2)` re-formatting, which is exact on the
hundredth-valued scoring data, last conjunct) and reports
`appliedOffset = -o` with `originalPerformance` = the pre-adjustment table
performance. -/
theorem handTiming_sign_inverted (data : ScoringData) (offsets : EventOffsets)
    (gender event : String) (p pts o : ℚ) (m n : ℤ)
    (hoff : getHandTimingOffset offsets event = some o) (ho : 0 < o) :
    lookupPoints data offsets gender event p true =
      (lookupPoints data offsets gender event (p + o) false).map
        (fun r => { r with appliedOffset := some o, originalPerformance := some p }) ∧
    lookupPerformance data offsets gender event pts true =
      (lookupPerformance data offsets gender event pts false).map
        (fun r => { r with
                    performance := toFixed2 (r.performance - o)
                    appliedOffset := some (-o)
                    originalPerformance := some r.performance }) ∧
    toFixed2 ((m : ℚ)/100 - (n : ℚ)/100) = (m : ℚ)/100 - (n : ℚ)/100 := by
  have ho' : ¬o = 0 := ne_of_gt ho
  refine ⟨?_, ?_, ?_⟩
  · cases hc : findCategory data gender event with
    | none => simp [lookupPoints, hc]
    | some category =>
      cases hd : getEventData data gender category event with
      | none => simp [lookupPoints, hc, hd]
      | some l =>
        by_cases hl : l.isEmpty
        · simp [lookupPoints, hc, hd, hl]
        · cases hscan : lookupScan (isFieldEvent event) (p + o) l none with
          | inl e =>
            simp [lookupPoints, hc, hd, hl, hoff, ho', hscan]
          | inr best =>
            cases best with
            | some b => simp [lookupPoints, hc, hd, hl, hoff, ho', hscan]
            | none =>
              cases hlow : lowestPointsEntry l with
              | none => simp [lookupPoints, hc, hd, hl, hoff, ho', hscan, hlow]
              | some c => simp [lookupPoints, hc, hd, hl, hoff, ho', hscan, hlow]
  · cases hc : findCategory data gender event with
    | none => simp [lookupPerformance, hc]
    | some category =>
      cases hd : getEventData data gender category event with
      | none => simp [lookupPerformance, hc, hd]
      | some l =>
        by_cases hl : l.isEmpty
        · simp [lookupPerformance, hc, hd, hl]
        · rcases hsc : perfScan (jsRound pts) l none with ⟨ex, lo⟩
          cases ex with
          | some e => simp [lookupPerformance, hc, hd, hl, hoff, ho', hsc]
          | none =>
            cases lo with
            | some b => simp [lookupPerformance, hc, hd, hl, hoff, ho', hsc]
            | none =>
              cases hlow : lowestPointsEntry l with
              | none => simp [lookupPerformance, hc, hd, hl, hoff, ho', hsc, hlow]
              | some c => simp [lookupPerformance, hc, hd, hl, hoff, ho', hsc, hlow]
  · unfold toFixed2 jsRound
    have h100 : (100 : ℚ) * ((m : ℚ)/100 - (n : ℚ)/100) = ((m - n : ℤ) : ℚ) := by
      push_cast
      ring
    rw [h100, add_comm, Int.floor_add_int]
    have : ⌊(1/2 : ℚ)⌋ = 0 := by norm_num
    rw [this]
    push_cast
    ring

/-! ## Concrete witness data for the lookup theorems

A small concrete scoring table: men's 100m with entries at 10.40 (1220 pts)
and 10.50 (1200 pts) — the configuration of spec §8 examples — plus a 0.24 s
hand-timing offset for the 100m. -/

def witnessEntries : List Entry := [ ((1220 : Int), 52/5), ((1200 : Int), 21/2) ]

def witnessTable : ScoringData :=
  [ ("men", [ ("sprints", [ ("100m", witnessEntries) ]) ]) ]

def witnessOffsets : EventOffsets := [ ("100m", 6/25) ]

theorem lookupPoints_between_witness :
    (∀ e ∈ witnessEntries, ¬(|e.2 - (209/20 : ℚ)| < 5/1000)) ∧
    ∃ r, lookupPoints witnessTable [] "men" "100m" (209/20) false = some r ∧
      r.exactMatch = false ∧
      (witnessEntries.filter (beats (isFieldEvent "100m") (209/20)) ≠ [] →
        (r.points, r.closestPerformance) ∈
          witnessEntries.filter (beats (isFieldEvent "100m") (209/20)) ∧
        ∀ e ∈ witnessEntries.filter (beats (isFieldEvent "100m") (209/20)),
          e.1 ≤ r.points) ∧
      (witnessEntries.filter (beats (isFieldEvent "100m") (209/20)) = [] →
        (r.points, r.closestPerformance) ∈ witnessEntries ∧
        ∀ e ∈ witnessEntries, r.points ≤ e.1) :=
  ⟨by norm_num [witnessEntries, abs_sub_lt_iff],
   lookupPoints_between witnessTable [] "men" "100m" (209/20) "sprints"
     witnessEntries rfl rfl (by simp [witnessEntries])
     (by norm_num [witnessEntries, abs_sub_lt_iff])⟩

theorem lookupPerformance_spec_witness :
    witnessEntries ≠ [] ∧
    ∃ r, lookupPerformance witnessTable [] "men" "100m" 1210 false = some r ∧
      ((∃ e ∈ witnessEntries, e.1 = jsRound 1210) →
        r.exactMatch = true ∧ r.points = jsRound 1210 ∧
        ∃ e ∈ witnessEntries, e.1 = jsRound 1210 ∧ r.performance = e.2) ∧
      ((∀ e ∈ witnessEntries, e.1 ≠ jsRound 1210) →
        (∃ e ∈ witnessEntries, e.1 < jsRound 1210) →
        r.exactMatch = false ∧ (r.points, r.performance) ∈ witnessEntries ∧
        r.points < jsRound 1210 ∧
        ∀ e ∈ witnessEntries, e.1 < jsRound 1210 → e.1 ≤ r.points) ∧
      ((∀ e ∈ witnessEntries, jsRound 1210 < e.1) →
        r.exactMatch = false ∧ (r.points, r.performance) ∈ witnessEntries ∧
        ∀ e ∈ witnessEntries, r.points ≤ e.1) :=
  ⟨by simp [witnessEntries],
   lookupPerformance_spec witnessTable [] "men" "100m" 1210 "sprints"
     witnessEntries rfl rfl (by simp [witnessEntries])⟩

theorem handTiming_sign_inverted_witness :
    getHandTimingOffset witnessOffsets "100m" = some (6/25) ∧ (0 : ℚ) < 6/25 ∧
    (lookupPoints witnessTable witnessOffsets "men" "100m" (513/50) true =
      (lookupPoints witnessTable witnessOffsets "men" "100m" (513/50 + 6/25) false).map
        (fun r => { r with appliedOffset := some (6/25), originalPerformance := some (513/50) }) ∧
    lookupPerformance witnessTable witnessOffsets "men" "100m" 1200 true =
      (lookupPerformance witnessTable witnessOffsets "men" "100m" 1200 false).map
        (fun r => { r with
                    performance := toFixed2 (r.performance - 6/25)
                    appliedOffset := some (-(6/25))
                    originalPerformance := some r.performance }) ∧
    toFixed2 ((1050 : ℤ)/100 - (24 : ℤ)/100) = ((1050 : ℤ) : ℚ)/100 - ((24 : ℤ) : ℚ)/100) :=
  ⟨rfl, by norm_num,
   handTiming_sign_inverted witnessTable witnessOffsets "men" "100m" (513/50) 1200
     (6/25) 1050 24 rfl (by norm_num)⟩

/-! ## Pace Formatter distance conversion and Pace Calculation Engine
(`pace-formatter.js`, `pace-calculations.js`) -/

/-- Unit-name normalization inside `convertDistance`: `'metres' → 'm'`. -/
def normalizeUnit (u : String) : String := if u = "metres" then "m" else u

/-- The `toMetres` factor table of `convertDistance`, with the `|| 1` fallback
for unrecognized units. -/
def toMetresFactor (u : String) : ℚ :=
  if u = "m" then 1
  else if u = "km" then 1000
  else if u = "miles" then 1609344/1000
  else if u = "yards" then 9144/10000
  else if u = "feet" then 3048/10000
  else 1

/-- Source function `convertDistance(distance, fromUnit, toUnit)` (pace-formatter.js):
convert to metres then to the target unit.  The numeric-input guard
(`distance == null || isNaN(distance)`) is vacuous on rationals. -/
def convertDistance (distance : ℚ) (fromUnit toUnit : String) : ℚ :=
  if fromUnit = toUnit then distance
  else
    distance * toMetresFactor (normalizeUnit fromUnit) /
      toMetresFactor (normalizeUnit toUnit)

/-- The target-unit selection shared verbatim by `calculatePace` and
`calculateTotalTime` (pace-calculations.js). -/
def paceTargetUnit (paceUnit : String) : String :=
  if paceUnit = "mile" then "miles"
  else if paceUnit = "400m" ∨ paceUnit = "200m" ∨ paceUnit = "100m" then "m"
  else "km"

/-- The adjusted-distance computation shared verbatim by `calculatePace` and
`calculateTotalTime`: metre-based pace units divide by their interval length. -/
def paceAdjustedDistance (distanceMetres : ℚ) (paceUnit : String) : ℚ :=
  let d := convertDistance distanceMetres "metres" (paceTargetUnit paceUnit)
  if paceUnit = "400m" then d / 400
  else if paceUnit = "200m" then d / 200
  else if paceUnit = "100m" then d / 100
  else d

/-- Source function `calculatePace(distanceMetres, totalTimeSeconds, paceUnit)`
(pace-calculations.js lines 611–640); the throw on non-positive inputs is
modelled as `none`. -/
def calculatePace (distanceMetres totalTimeSeconds : ℚ) (paceUnit : String) :
    Option ℚ :=
  if distanceMetres ≤ 0 ∨ totalTimeSeconds ≤ 0 then none
  else some (totalTimeSeconds / paceAdjustedDistance distanceMetres paceUnit)

/-- Source function `calculateTotalTime(distanceMetres, paceSecondsPerUnit, paceUnit)`
(pace-calculations.js lines 649–678). -/
def calculateTotalTime (distanceMetres paceSecondsPerUnit : ℚ)
    (paceUnit : String) : Option ℚ :=
  if distanceMetres ≤ 0 ∨ paceSecondsPerUnit ≤ 0 then none
  else some (paceSecondsPerUnit * paceAdjustedDistance distanceMetres paceUnit)

/-- The `conversions` table of `calculateSpeed` (m/s → unit), with the
`|| 1` fallback. -/
def speedConversionFactor (u : String) : ℚ :=
  if u = "ms" then 1
  else if u = "kmh" then 36/10
  else if u = "mph" then 223694/100000
  else if u = "fts" then 328084/100000
  else if u = "yds" then 109361/100000
  else 1

/-- Source function `calculateSpeed(distanceMetres, totalTimeSeconds, speedUnit)`
(pace-calculations.js lines 819–837). -/
def calculateSpeed (distanceMetres totalTimeSeconds : ℚ) (speedUnit : String) :
    Option ℚ :=
  if distanceMetres ≤ 0 ∨ totalTimeSeconds ≤ 0 then none
  else some (distanceMetres / totalTimeSeconds * speedConversionFactor speedUnit)

/-- The `conversions` table of `calculateTotalTimeFromSpeed`: the literal
reciprocals `1/3.6`, `1/2.23694`, `1/3.28084`, `1/1.09361` of the forward
factors (unit → m/s), with the `|| 1` fallback. -/
def speedToMetresPerSecondFactor (u : String) : ℚ :=
  if u = "ms" then 1
  else if u = "kmh" then 1 / (36/10)
  else if u = "mph" then 1 / (223694/100000)
  else if u = "fts" then 1 / (328084/100000)
  else if u = "yds" then 1 / (109361/100000)
  else 1

/-- Source function `calculateTotalTimeFromSpeed(distanceMetres, speed, speedUnit)`
(pace-calculations.js lines 846–864). -/
def calculateTotalTimeFromSpeed (distanceMetres speed : ℚ) (speedUnit : String) :
    Option ℚ :=
  if distanceMetres ≤ 0 ∨ speed ≤ 0 then none
  else some (distanceMetres / (speed * speedToMetresPerSecondFactor speedUnit))

/-- Round trip through `calculatePace`/`calculateTotalTime` for any pace unit
whose adjusted distance is positive. -/
theorem pace_roundtrip_of_adjusted_pos (d t : ℚ) (hd : 0 < d) (ht : 0 < t)
    (u : String) (hadj : 0 < paceAdjustedDistance d u) :
    ∃ p, calculatePace d t u = some p ∧ calculateTotalTime d p u = some t := by
  refine ⟨t / paceAdjustedDistance d u, ?_, ?_⟩
  · rw [calculatePace, if_neg (by push_neg; exact ⟨hd, ht⟩)]
  · have hp : 0 < t / paceAdjustedDistance d u := div_pos ht hadj
    rw [calculateTotalTime, if_neg (by push_neg; exact ⟨hd, hp⟩)]
    congr 1
    field_simp

/-- Round trip through `calculateSpeed`/`calculateTotalTimeFromSpeed` for any
speed unit whose reverse factor is the exact reciprocal of the forward one. -/
theorem speed_roundtrip_of_factor_inv (d t : ℚ) (hd : 0 < d) (ht : 0 < t)
    (v : String) (hf : 0 < speedConversionFactor v)
    (hinv : speedConversionFactor v * speedToMetresPerSecondFactor v = 1) :
    ∃ s, calculateSpeed d t v = some s ∧
      calculateTotalTimeFromSpeed d s v = some t := by
  refine ⟨d / t * speedConversionFactor v, ?_, ?_⟩
  · rw [calculateSpeed, if_neg (by push_neg; exact ⟨hd, ht⟩)]
  · have hs : 0 < d / t * speedConversionFactor v :=
      mul_pos (div_pos hd ht) hf
    rw [calculateTotalTimeFromSpeed, if_neg (by push_neg; exact ⟨hd, hs⟩)]
    congr 1
    rw [mul_assoc, hinv, mul_one]
    field_simp

/-- Claim C4: for every positive distance and time and every supported pace unit
(`km`, `mile`, `400m`, `200m`, `100m`), `calculateTotalTime` inverts
`calculatePace` exactly; symmetrically `calculateTotalTimeFromSpeed` inverts
`calculateSpeed` over `ms`, `kmh`, `mph`, `fts`, `yds`; and both forward
functions reject (throw, modelled as `none`) non-positive distance or time. -/
theorem pace_speed_roundtrip (d t : ℚ) (u v : String) :
    (0 < d → 0 < t →
      ((u = "km" ∨ u = "mile" ∨ u = "400m" ∨ u = "200m" ∨ u = "100m") →
        ∃ p, calculatePace d t u = some p ∧ calculateTotalTime d p u = some t) ∧
      ((v = "ms" ∨ v = "kmh" ∨ v = "mph" ∨ v = "fts" ∨ v = "yds") →
        ∃ s, calculateSpeed d t v = some s ∧
          calculateTotalTimeFromSpeed d s v = some t)) ∧
    ((d ≤ 0 ∨ t ≤ 0) →
      calculatePace d t u = none ∧ calculateSpeed d t v = none) := by
  constructor
  · intro hd ht
    constructor
    · rintro (rfl | rfl | rfl | rfl | rfl) <;>
        refine pace_roundtrip_of_adjusted_pos d t hd ht _ ?_ <;>
        · simp only [paceAdjustedDistance, paceTargetUnit, convertDistance,
            normalizeUnit, toMetresFactor]
          norm_num
          positivity
    · rintro (rfl | rfl | rfl | rfl | rfl) <;>
        refine speed_roundtrip_of_factor_inv d t hd ht _ ?_ ?_ <;>
        · simp [speedConversionFactor, speedToMetresPerSecondFactor]
  · intro h
    exact ⟨by rw [calculatePace, if_pos h], by rw [calculateSpeed, if_pos h]⟩

theorem pace_speed_roundtrip_witness :
    (∃ p, calculatePace 1000 300 "km" = some p ∧
      calculateTotalTime 1000 p "km" = some 300) ∧
    (∃ s, calculateSpeed 1000 300 "kmh" = some s ∧
      calculateTotalTimeFromSpeed 1000 s "kmh" = some 300) ∧
    calculatePace 0 300 "km" = none :=
  ⟨((pace_speed_roundtrip 1000 300 "km" "kmh").1 (by norm_num) (by norm_num)).1
      (Or.inl rfl),
   ((pace_speed_roundtrip 1000 300 "km" "kmh").1 (by norm_num) (by norm_num)).2
      (Or.inr (Or.inl rfl)),
   ((pace_speed_roundtrip 0 300 "km" "kmh").2 (Or.inl le_rfl)).1⟩

/-! ## Pace Formatter time rendering (`pace-formatter.js`) -/

/-- A JS `number`-or-absent argument: `null`, `undefined`, `NaN`, or a finite
numeric value (the inputs `formatPaceTime`/`formatTotalTime` may receive). -/
inductive JSNum where
  | null : JSNum
  | undefined : JSNum
  | nan : JSNum
  | num : ℚ → JSNum
deriving Repr, DecidableEq

/-- JS `String.prototype.padStart(2, '0')` on a rendered integer. -/
def pad2 (n : Int) : String :=
  let s := toString n
  if s.length < 2 then "0" ++ s else s

/-- JS `rounded.toFixed(2)` on the multiples of `1/100` produced by the preceding
`Math.round(x*100)/100`: render as `<int>.<two digits>`. -/
def toFixed2Str (q : ℚ) : String :=
  let n := jsRound (100 * q)
  toString (n / 100) ++ "." ++ pad2 (n % 100)

/-- The trailing-zero strip `formatted.replace(/\.?0+$/, '')`: drop trailing
zeros, and the decimal point too when everything after it was zeros. -/
def stripTrailingZeros (s : String) : String :=
  let rcs := s.toList.reverse
  let dropped := rcs.dropWhile (· = '0')
  if dropped.length = rcs.length then s
  else
    let dropped2 := if dropped.head? = some '.' then dropped.tail else dropped
    ⟨dropped2.reverse⟩

/-- Source function `formatSubMinuteTime(seconds)` (pace-formatter.js lines 12–30): round to
two decimals; reformat as `M:SS` when rounding reaches 60, else trim trailing
zeros and append a literal `s`. -/
def formatSubMinuteTime (seconds : ℚ) : String :=
  let rounded : ℚ := (jsRound (seconds * 100) : ℚ) / 100
  if 60 ≤ rounded then
    toString ⌊rounded / 60⌋ ++ ":" ++ pad2 (jsRound (rounded - 60 * ⌊rounded / 60⌋))
  else
    stripTrailingZeros (toFixed2Str rounded) ++ "s"

/-- Source function `formatPaceTime(seconds)` (pace-formatter.js lines 37–56): empty string on
`null`/`undefined`/`NaN`/negative, `formatSubMinuteTime` below 60 s, else
`M:SS` or `H:MM:SS` with seconds rounded. -/
def formatPaceTime (seconds : JSNum) : String :=
  match seconds with
  | .null => ""
  | .undefined => ""
  | .nan => ""
  | .num q =>
    if q < 0 then ""
    else if q < 60 then formatSubMinuteTime q
    else
      let hours := ⌊q / 3600⌋
      let minutes := ⌊(q - 3600 * ⌊q / 3600⌋) / 60⌋
      let secs := jsRound (q - 60 * ⌊q / 60⌋)
      if 0 < hours then
        toString hours ++ ":" ++ pad2 minutes ++ ":" ++ pad2 secs
      else
        toString minutes ++ ":" ++ pad2 secs

/-- Source function `formatTotalTime(seconds)` (pace-formatter.js lines 156–175): same
rendering as `formatPaceTime`, duplicated in the source. -/
def formatTotalTime (seconds : JSNum) : String :=
  match seconds with
  | .null => ""
  | .undefined => ""
  | .nan => ""
  | .num q =>
    if q < 0 then ""
    else if q < 60 then formatSubMinuteTime q
    else
      let hours := ⌊q / 3600⌋
      let minutes := ⌊(q - 3600 * ⌊q / 3600⌋) / 60⌋
      let secs := jsRound (q - 60 * ⌊q / 60⌋)
      if 0 < hours then
        toString hours ++ ":" ++ pad2 minutes ++ ":" ++ pad2 secs
      else
        toString minutes ++ ":" ++ pad2 secs

/-- The inputs on which the formatters return the empty string. -/
def absentOrNegative (x : JSNum) : Prop :=
  match x with
  | .num q => q < 0
  | _ => True

theorem ne_empty_of_length_pos {s : String} (h : 0 < s.length) : s ≠ "" := by
  intro he
  rw [he] at h
  simp at h

theorem append_right_ne_empty (s t : String) (ht : 0 < t.length) : s ++ t ≠ "" := by
  apply ne_empty_of_length_pos
  rw [String.length_append]
  omega

theorem pad2_length_pos (n : Int) : 0 < (pad2 n).length := by
  rw [pad2]
  split
  · rw [String.length_append]
    have h0 : ("0" : String).length = 1 := rfl
    omega
  · omega

theorem formatSubMinuteTime_ne_empty (q : ℚ) : formatSubMinuteTime q ≠ "" := by
  rw [formatSubMinuteTime]
  by_cases h : 60 ≤ (jsRound (q * 100) : ℚ) / 100
  · rw [if_pos h]
    exact append_right_ne_empty _ _ (pad2_length_pos _)
  · rw [if_neg h]
    apply append_right_ne_empty
    decide

/-- Claim C9: `formatPaceTime` and `formatTotalTime` are total on all
numeric-or-absent inputs: `null`, `undefined`, `NaN` and negative numbers
yield the empty string (rather than throwing), and every non-negative finite
number yields a non-empty string. -/
theorem format_time_total (x : JSNum) :
    (formatPaceTime x = "" ↔ absentOrNegative x) ∧
    (formatTotalTime x = "" ↔ absentOrNegative x) := by
  have key : ∀ q : ℚ, ¬q < 0 →
      (if q < 60 then formatSubMinuteTime q
       else
        if 0 < ⌊q / 3600⌋ then
          toString ⌊q / 3600⌋ ++ ":" ++ pad2 ⌊(q - 3600 * ⌊q / 3600⌋) / 60⌋ ++ ":" ++
            pad2 (jsRound (q - 60 * ⌊q / 60⌋))
        else
          toString ⌊(q - 3600 * ⌊q / 3600⌋) / 60⌋ ++ ":" ++
            pad2 (jsRound (q - 60 * ⌊q / 60⌋))) ≠ "" := by
    intro q _
    by_cases h60 : q < 60
    · rw [if_pos h60]
      exact formatSubMinuteTime_ne_empty q
    · rw [if_neg h60]
      split
      · exact append_right_ne_empty _ _ (pad2_length_pos _)
      · exact append_right_ne_empty _ _ (pad2_length_pos _)
  cases x with
  | null => exact ⟨by simp [formatPaceTime, absentOrNegative], by simp [formatTotalTime, absentOrNegative]⟩
  | undefined => exact ⟨by simp [formatPaceTime, absentOrNegative], by simp [formatTotalTime, absentOrNegative]⟩
  | nan => exact ⟨by simp [formatPaceTime, absentOrNegative], by simp [formatTotalTime, absentOrNegative]⟩
  | num q =>
    by_cases hq : q < 0
    · exact ⟨by simp [formatPaceTime, absentOrNegative, hq],
             by simp [formatTotalTime, absentOrNegative, hq]⟩
    · constructor
      · rw [formatPaceTime, if_neg hq]
        exact ⟨fun h => absurd h (key q hq), fun h => absurd h hq⟩
      · rw [formatTotalTime, if_neg hq]
        exact ⟨fun h => absurd h (key q hq), fun h => absurd h hq⟩

/-! ## Collapsible Section utility (`collapsible-section.js`) and its
pace-calculator call sites (pace-calculator page, part_003) -/

/-- The initial-state computation of `makeCollapsible(titleElement,
contentElement, storageKey, defaultCollapsed = true)`: a stored string is
compared against `'true'`, otherwise the caller-supplied default applies. -/
def collapsibleInitialCollapsed (storedState : Option String)
    (defaultCollapsed : Bool) : Bool :=
  match storedState with
  | some s => s == "true"
  | none => defaultCollapsed

/-- Storage key of the Equivalent Paces panel's `makeCollapsible` calls
(part_003 lines 1489, 1636, 1761, 1861). -/
def equivalentPacesKey : String := "paceCalculator.equivalentPaces.collapsed"

/-- The `defaultCollapsed` argument passed for the Equivalent Paces panel. -/
def equivalentPacesDefaultCollapsed : Bool := true

/-- Storage key of the Split Times panel's `makeCollapsible` call in
`displaySplits` (part_003 line 2145). -/
def splitTimesKey : String := "paceCalculator.splitTimes.collapsed"

/-- The `defaultCollapsed` argument passed for the Split Times panel: the source
passes `false`, although the adjacent comment reads "Make the split times
section collapsible and start collapsed by default". -/
def splitTimesDefaultCollapsed : Bool := false

/-- Claim C8, evaluating the code at the failing input: with no stored state
for its key, the Equivalent Paces panel starts collapsed but the Split Times
panel starts expanded — `displaySplits` passes `defaultCollapsed = false`,
contradicting its own comment and the claim that both panels default to
collapsed.  The two storage keys are distinct as claimed. -/
theorem splitTimes_default_not_collapsed :
    collapsibleInitialCollapsed none equivalentPacesDefaultCollapsed = true ∧
    collapsibleInitialCollapsed none splitTimesDefaultCollapsed = false ∧
    equivalentPacesKey ≠ splitTimesKey := by decide

/-! ## Scoring Table Extractor — `cleanAndSortData`
(`tools/scoring-table-extractor/index.js` lines 671–694) -/

/-- An extractor table entry `{performance, points}`: the performance is the
raw string captured from the PDF (the de-duplication Map is keyed on it). -/
structure ExEntry where
  performance : String
  points : Int
deriving Repr, DecidableEq

/-- One iteration of the de-duplication loop:
`if (!uniqueMap.has(key) || uniqueMap.get(key).points < entry.points)
uniqueMap.set(key, entry)` — a JS `Map.set` on an existing key replaces the
value in place (keeping first-insertion order), otherwise appends. -/
def dedupStep (m : List ExEntry) (e : ExEntry) : List ExEntry :=
  match m.find? (fun x => x.performance == e.performance) with
  | none => m ++ [e]
  | some x =>
    if x.points < e.points then
      m.map fun y => if y.performance == e.performance then e else y
    else m

/-- The de-duplication pass over one event's entry list. -/
def dedupByPerformance (entries : List ExEntry) : List ExEntry :=
  entries.foldl dedupStep []

/-- The sort order of `.sort((a, b) => b.points - a.points)`: points
descending. -/
def pointsGE (a b : ExEntry) : Prop := b.points ≤ a.points

instance : DecidableRel pointsGE :=
  fun a b => (inferInstance : Decidable (b.points ≤ a.points))

instance : IsTotal ExEntry pointsGE := ⟨fun a b => le_total b.points a.points⟩

instance : IsTrans ExEntry pointsGE := ⟨fun _ _ _ hab hbc => le_trans hbc hab⟩

/-- The per-event body of `cleanAndSortData`: de-duplicate keeping the higher
points, then sort by points descending. -/
def cleanEventList (entries : List ExEntry) : List ExEntry :=
  List.insertionSort pointsGE (dedupByPerformance entries)

/-- Association list `eventName → entries` of the extractor's tables. -/
abbrev ExEventTable := List (String × List ExEntry)

/-- Association list `category → events` of the extractor's tables. -/
abbrev ExCategoryTable := List (String × ExEventTable)

/-- The extractor's `this.tables`: `gender → category → event → entries`. -/
abbrev ExTables := List (String × ExCategoryTable)

/-- Source method `cleanAndSortData()` (index.js lines 671–694): apply the per-event
cleaning to every `(gender, category, event)` bucket. -/
def cleanAndSortData (t : ExTables) : ExTables :=
  t.map fun g =>
    (g.1, g.2.map fun c => (c.1, c.2.map fun ev => (ev.1, cleanEventList ev.2)))

/-- Access one `(gender, category, event)` bucket of the extractor's tables. -/
def findEventList (t : ExTables) (gender category event : String) :
    Option (List ExEntry) :=
  (t.lookup gender).bind fun cats =>
    (cats.lookup category).bind fun evs => evs.lookup event

/-- Distinctness of performance strings within a list. -/
def PerfDistinct (l : List ExEntry) : Prop :=
  l.Pairwise fun a b => a.performance ≠ b.performance

/-- Behavior of `dedupStep` when the performance is new: append. -/
theorem dedupStep_eq_append (m : List ExEntry) (e : ExEntry)
    (hfind : m.find? (fun x => x.performance == e.performance) = none) :
    dedupStep m e = m ++ [e] := by
  unfold dedupStep
  rw [hfind]

/-- Behavior of `dedupStep` when the stored entry has strictly lower points: replace in
place. -/
theorem dedupStep_eq_replace (m : List ExEntry) (e x : ExEntry)
    (hfind : m.find? (fun y => y.performance == e.performance) = some x)
    (hlt : x.points < e.points) :
    dedupStep m e = m.map fun y => if y.performance == e.performance then e else y := by
  unfold dedupStep
  rw [hfind]
  exact if_pos hlt

/-- Behavior of `dedupStep` when the stored entry already has at least the points: keep. -/
theorem dedupStep_eq_keep (m : List ExEntry) (e x : ExEntry)
    (hfind : m.find? (fun y => y.performance == e.performance) = some x)
    (hlt : ¬x.points < e.points) :
    dedupStep m e = m := by
  unfold dedupStep
  rw [hfind]
  exact if_neg hlt

/-- One de-duplication step preserves the running invariants: distinct
performances, every retained entry is a processed entry carrying the highest
points among processed entries with its performance, and every processed
performance is represented. -/
theorem dedupStep_spec (m : List ExEntry) (e : ExEntry) (processed : List ExEntry)
    (h1 : PerfDistinct m)
    (h2 : ∀ x ∈ m, x ∈ processed)
    (h3 : ∀ x ∈ m, ∀ p ∈ processed, p.performance = x.performance → p.points ≤ x.points)
    (h4 : ∀ p ∈ processed, ∃ x ∈ m, x.performance = p.performance) :
    PerfDistinct (dedupStep m e) ∧
    (∀ x ∈ dedupStep m e, x ∈ processed ++ [e]) ∧
    (∀ x ∈ dedupStep m e, ∀ p ∈ processed ++ [e],
      p.performance = x.performance → p.points ≤ x.points) ∧
    (∀ p ∈ processed ++ [e], ∃ x ∈ dedupStep m e, x.performance = p.performance) := by
  cases hfind : m.find? (fun x => x.performance == e.performance) with
  | none =>
    have hnone : ∀ x ∈ m, x.performance ≠ e.performance := by
      intro x hx
      have := List.find?_eq_none.mp hfind x hx
      simpa using this
    rw [dedupStep_eq_append m e hfind]
    refine ⟨?_, ?_, ?_, ?_⟩
    · rw [PerfDistinct, List.pairwise_append]
      refine ⟨h1, by simp, ?_⟩
      intro a ha b hb
      rw [List.mem_singleton] at hb
      subst hb
      exact hnone a ha
    · intro x hx
      rcases List.mem_append.mp hx with h' | h'
      · exact List.mem_append.mpr (Or.inl (h2 x h'))
      · exact List.mem_append.mpr (Or.inr h')
    · intro x hx p hp hperf
      rcases List.mem_append.mp hx with hxm | hxe
      · rcases List.mem_append.mp hp with hpp | hpe
        · exact h3 x hxm p hpp hperf
        · rw [List.mem_singleton] at hpe
          subst hpe
          exact absurd hperf.symm (hnone x hxm)
      · rw [List.mem_singleton] at hxe
        subst hxe
        rcases List.mem_append.mp hp with hpp | hpe
        · obtain ⟨y, hy, hyp⟩ := h4 p hpp
          exact absurd (hyp.trans hperf) (hnone y hy)
        · rw [List.mem_singleton] at hpe
          subst hpe
          exact le_refl _
    · intro p hp
      rcases List.mem_append.mp hp with hpp | hpe
      · obtain ⟨y, hy, hyp⟩ := h4 p hpp
        exact ⟨y, List.mem_append.mpr (Or.inl hy), hyp⟩
      · rw [List.mem_singleton] at hpe
        refine ⟨e, List.mem_append.mpr (Or.inr (by simp)), ?_⟩
        rw [hpe]
  | some x =>
    have hx_mem : x ∈ m := List.mem_of_find?_eq_some hfind
    have hx_perf : x.performance = e.performance := by
      have := List.find?_some hfind
      simpa using this
    have hsymm : Symmetric fun a b : ExEntry => a.performance ≠ b.performance :=
      fun a b h => h.symm
    have huniq : ∀ y ∈ m, y.performance = e.performance → y = x := by
      intro y hy hyp
      by_contra hne
      exact (h1.forall hsymm hy hx_mem hne) (hyp.trans hx_perf.symm)
    by_cases hlt : x.points < e.points
    · rw [dedupStep_eq_replace m e x hfind hlt]
      have hfperf : ∀ y : ExEntry,
          ((if y.performance == e.performance then e else y) : ExEntry).performance =
            y.performance := by
        intro y
        by_cases hb : y.performance = e.performance
        · simp [hb]
        · simp [hb]
      refine ⟨?_, ?_, ?_, ?_⟩
      · exact List.Pairwise.map _
          (fun a b hab => by rw [hfperf a, hfperf b]; exact hab) h1
      · intro z hz
        obtain ⟨y, hy, hyz⟩ := List.mem_map.mp hz
        by_cases hb : y.performance = e.performance
        · rw [if_pos (by simpa using hb)] at hyz
          exact List.mem_append.mpr (Or.inr (by simp [hyz.symm]))
        · rw [if_neg (by simpa using hb)] at hyz
          exact List.mem_append.mpr (Or.inl (hyz ▸ h2 y hy))
      · intro z hz p hp hperf
        obtain ⟨y, hy, hyz⟩ := List.mem_map.mp hz
        by_cases hb : y.performance = e.performance
        · rw [if_pos (by simpa using hb)] at hyz
          subst hyz
          rcases List.mem_append.mp hp with hpp | hpe
          · have hpx : p.performance = x.performance := hperf.trans hx_perf.symm
            exact le_trans (h3 x hx_mem p hpp hpx) (le_of_lt hlt)
          · rw [List.mem_singleton] at hpe
            subst hpe
            exact le_refl _
        · rw [if_neg (by simpa using hb)] at hyz
          subst hyz
          rcases List.mem_append.mp hp with hpp | hpe
          · exact h3 y hy p hpp hperf
          · rw [List.mem_singleton] at hpe
            subst hpe
            exact absurd hperf.symm hb
      · intro p hp
        rcases List.mem_append.mp hp with hpp | hpe
        · obtain ⟨y, hy, hyp⟩ := h4 p hpp
          refine ⟨(if y.performance == e.performance then e else y),
            List.mem_map.mpr ⟨y, hy, rfl⟩, ?_⟩
          rw [hfperf y]
          exact hyp
        · rw [List.mem_singleton] at hpe
          refine ⟨e, List.mem_map.mpr ⟨x, hx_mem, ?_⟩, ?_⟩
          · rw [if_pos (by simpa using hx_perf)]
          · rw [hpe]
    · rw [dedupStep_eq_keep m e x hfind hlt]
      refine ⟨h1, fun z hz => List.mem_append.mpr (Or.inl (h2 z hz)), ?_, ?_⟩
      · intro z hz p hp hperf
        rcases List.mem_append.mp hp with hpp | hpe
        · exact h3 z hz p hpp hperf
        · rw [List.mem_singleton] at hpe
          subst hpe
          have hzx : z = x := huniq z hz hperf.symm
          subst hzx
          exact le_of_not_lt hlt
      · intro p hp
        rcases List.mem_append.mp hp with hpp | hpe
        · exact h4 p hpp
        · rw [List.mem_singleton] at hpe
          subst hpe
          exact ⟨x, hx_mem, hx_perf⟩

/-- The full de-duplication fold maintains the invariants of
`dedupStep_spec` across the remaining entries. -/
theorem dedup_foldl_spec (rest : List ExEntry) :
    ∀ (processed m : List ExEntry),
    PerfDistinct m →
    (∀ x ∈ m, x ∈ processed) →
    (∀ x ∈ m, ∀ p ∈ processed, p.performance = x.performance → p.points ≤ x.points) →
    (∀ p ∈ processed, ∃ x ∈ m, x.performance = p.performance) →
    PerfDistinct (rest.foldl dedupStep m) ∧
    (∀ x ∈ rest.foldl dedupStep m, x ∈ processed ++ rest) ∧
    (∀ x ∈ rest.foldl dedupStep m, ∀ p ∈ processed ++ rest,
      p.performance = x.performance → p.points ≤ x.points) ∧
    (∀ p ∈ processed ++ rest, ∃ x ∈ rest.foldl dedupStep m,
      x.performance = p.performance) := by
  induction rest with
  | nil =>
    intro processed m h1 h2 h3 h4
    simpa using ⟨h1, h2, h3, h4⟩
  | cons e rest ih =>
    intro processed m h1 h2 h3 h4
    obtain ⟨g1, g2, g3, g4⟩ := dedupStep_spec m e processed h1 h2 h3 h4
    have := ih (processed ++ [e]) (dedupStep m e) g1 g2 g3 g4
    rw [List.append_assoc] at this
    simpa using this

/-- The per-event cleaning establishes the C5 invariants against the raw
entry list. -/
theorem cleanEventList_spec (entries : List ExEntry) :
    PerfDistinct (cleanEventList entries) ∧
    (∀ x ∈ cleanEventList entries, x ∈ entries ∧
      ∀ p ∈ entries, p.performance = x.performance → p.points ≤ x.points) ∧
    (∀ p ∈ entries, ∃ x ∈ cleanEventList entries, x.performance = p.performance) ∧
    (cleanEventList entries).Sorted pointsGE := by
  obtain ⟨d1, d2, d3, d4⟩ := dedup_foldl_spec entries [] []
    (by simp [PerfDistinct]) (by simp) (by simp) (by simp)
  simp only [List.nil_append] at d2 d3 d4
  have hperm : List.Perm (cleanEventList entries) (dedupByPerformance entries) :=
    List.perm_insertionSort pointsGE (dedupByPerformance entries)
  refine ⟨?_, ?_, ?_, List.sorted_insertionSort pointsGE _⟩
  · exact (hperm.pairwise_iff fun h => Ne.symm h).mpr d1
  · intro x hx
    have hx' : x ∈ dedupByPerformance entries := hperm.mem_iff.mp hx
    exact ⟨d2 x hx', d3 x hx'⟩
  · intro p hp
    obtain ⟨x, hx, hxp⟩ := d4 p hp
    exact ⟨x, hperm.mem_iff.mpr hx, hxp⟩

/-- Association-list lookup commutes with mapping over the values. -/
theorem lookup_map_snd {β γ : Type} (l : List (String × β)) (k : String)
    (f : β → γ) :
    (l.map fun p => (p.1, f p.2)).lookup k = (l.lookup k).map f := by
  induction l with
  | nil => rfl
  | cons hd tl ih =>
    obtain ⟨a, b⟩ := hd
    by_cases hk : k == a
    · simp [List.lookup, hk]
    · simp only [List.map_cons, List.lookup, hk]
      exact ih

/-- Lookup through `cleanAndSortData` rewrites each bucket by `cleanEventList`. -/
theorem findEventList_clean (t : ExTables) (gender category event : String) :
    findEventList (cleanAndSortData t) gender category event =
      (findEventList t gender category event).map cleanEventList := by
  rw [findEventList, findEventList, cleanAndSortData, lookup_map_snd]
  cases t.lookup gender with
  | none => rfl
  | some cats =>
    simp only [Option.map_some', Option.some_bind]
    rw [lookup_map_snd]
    cases cats.lookup category with
    | none => rfl
    | some evs =>
      simp only [Option.map_some', Option.some_bind]
      rw [lookup_map_snd]

/-- Claim C5: after `cleanAndSortData`, every `(gender, category, event)` bucket
has pairwise-distinct performance strings, retains for each raw performance
the entry with the highest points among raw entries sharing it, and is sorted
by points in descending order. -/
theorem cleanAndSortData_invariants (t : ExTables) (gender category event : String)
    (raw cleaned : List ExEntry)
    (hraw : findEventList t gender category event = some raw)
    (hclean : findEventList (cleanAndSortData t) gender category event = some cleaned) :
    PerfDistinct cleaned ∧
    (∀ x ∈ cleaned, x ∈ raw ∧
      ∀ p ∈ raw, p.performance = x.performance → p.points ≤ x.points) ∧
    (∀ p ∈ raw, ∃ x ∈ cleaned, x.performance = p.performance) ∧
    cleaned.Sorted pointsGE := by
  have h := findEventList_clean t gender category event
  rw [hraw, hclean] at h
  have hc : cleaned = cleanEventList raw := by
    simpa using h
  subst hc
  exact cleanEventList_spec raw

/-- Raw entries mixing the two spec §8 fixtures: duplicate "10.00" rows with
points 900 and 950, and unsorted points 500/950/800. -/
def exRawEntries : List ExEntry :=
  [ ⟨"10.00", 900⟩, ⟨"11.50", 500⟩, ⟨"10.00", 950⟩, ⟨"12.00", 800⟩ ]

def exTables : ExTables :=
  [ ("men", [ ("sprints", [ ("100m", exRawEntries) ]) ]) ]

/-- The cleaned bucket: de-duplicated to the 950-point "10.00" row and sorted
descending. -/
def exCleanEntries : List ExEntry :=
  [ ⟨"10.00", 950⟩, ⟨"12.00", 800⟩, ⟨"11.50", 500⟩ ]

theorem cleanAndSortData_invariants_witness :
    findEventList exTables "men" "sprints" "100m" = some exRawEntries ∧
    findEventList (cleanAndSortData exTables) "men" "sprints" "100m" =
      some exCleanEntries ∧
    (PerfDistinct exCleanEntries ∧
      (∀ x ∈ exCleanEntries, x ∈ exRawEntries ∧
        ∀ p ∈ exRawEntries, p.performance = x.performance → p.points ≤ x.points) ∧
      (∀ p ∈ exRawEntries, ∃ x ∈ exCleanEntries, x.performance = p.performance) ∧
      exCleanEntries.Sorted pointsGE) :=
  ⟨rfl, rfl,
   cleanAndSortData_invariants exTables "men" "sprints" "100m"
     exRawEntries exCleanEntries rfl rfl⟩

/-! ## Scoring Table Extractor — `parseCrossReferencedRow`
(`tools/scoring-table-extractor/index.js` lines 287–384) -/

/-- Source expression `line.split(/\s+/).filter(col => col.trim())`: whitespace tokenization.
Implemented character-wise: splitting at every whitespace character and
dropping empty pieces coincides with splitting on whitespace runs. -/
def splitWsGo : List Char → List Char → List String
  | [], acc => [String.mk acc.reverse]
  | c :: rest, acc =>
    if c.isWhitespace then String.mk acc.reverse :: splitWsGo rest []
    else splitWsGo rest (c :: acc)

/-- Whitespace tokenization of a data line. -/
def splitWs (line : String) : List String :=
  (splitWsGo line.toList []).filter (· ≠ "")

/-- Tail parser for the simple-value test `/^\d+(?:[\.:]\d+){1,2}(?:\.\d+)?$/`:
starting inside a digit run, return the list of group separators if the rest
of the token is `(('.'|':') digit+)*`, else `none`. -/
def chunksGo : List Char → Option (List Char)
  | [] => some []
  | c :: rest =>
    if c.isDigit then chunksGo rest
    else if c = '.' ∨ c = ':' then
      match rest with
      | [] => none
      | d :: rest2 => if d.isDigit then (chunksGo rest2).map (c :: ·) else none
    else none

/-- The simple-value test of the token repair: a leading digit run followed by
one or two `[.:]digits` groups, optionally a third whose separator is `.`
(the regex backtracking resolution of `{1,2}` plus the optional group). -/
def simpleValueCheck (t : String) : Bool :=
  match t.toList with
  | [] => false
  | c :: _ =>
    if c.isDigit then
      match chunksGo t.toList with
      | some seps =>
        (seps.length == 1 || seps.length == 2) ||
          (seps.length == 3 && seps.getLast? == some '.')
      | none => false
    else false

/-- One `(?::\d{2})` group of the performance pattern: a colon followed by
exactly two digits. -/
def colonGroup : List Char → Option (List Char × List Char)
  | ':' :: d1 :: d2 :: rest =>
    if d1.isDigit ∧ d2.isDigit then some ([':', d1, d2], rest) else none
  | _ => none

/-- The `(?:\.\d{2})` group of the performance pattern: a dot followed by
exactly two digits. -/
def dotGroup : List Char → Option (List Char × List Char)
  | '.' :: d1 :: d2 :: rest =>
    if d1.isDigit ∧ d2.isDigit then some (['.', d1, d2], rest) else none
  | _ => none

/-- One greedy match of `/\d+(?::\d{2}){0,2}(?:\.\d{2})?/` at a digit-headed
position: the matched characters and the remaining input. -/
def matchPerf (cs : List Char) : List Char × List Char :=
  let ds := cs.takeWhile Char.isDigit
  let r0 := cs.dropWhile Char.isDigit
  match colonGroup r0 with
  | some (g1, r1) =>
    match colonGroup r1 with
    | some (g2, r2) =>
      match dotGroup r2 with
      | some (g3, r3) => (ds ++ g1 ++ g2 ++ g3, r3)
      | none => (ds ++ g1 ++ g2, r2)
    | none =>
      match dotGroup r1 with
      | some (g3, r3) => (ds ++ g1 ++ g3, r3)
      | none => (ds ++ g1, r1)
  | none =>
    match dotGroup r0 with
    | some (g3, r3) => (ds ++ g3, r3)
    | none => (ds, r0)

/-- The global scan of the token-repair branch: emit every performance-shaped
match and every interleaved dash in original order, dropping other characters.
`fuel` bounds the recursion; one character is consumed per step, so
`fuel = cs.length` never binds (`repairScanAux_sufficient`). -/
def repairScanAux : Nat → List Char → List String
  | 0, _ => []
  | fuel + 1, cs =>
    match cs with
    | [] => []
    | c :: rest =>
      if c.isDigit then
        String.mk (matchPerf (c :: rest)).1 :: repairScanAux fuel (matchPerf (c :: rest)).2
      else if c = '-' then "-" :: repairScanAux fuel rest
      else repairScanAux fuel rest

/-- The dash/match reconstruction of one concatenated token. -/
def repairScan (cs : List Char) : List String :=
  repairScanAux cs.length cs

/-- Per-token repair of `parseCrossReferencedRow`'s `flatMap`: lone or doubled
dashes and simple values pass through; tokens containing digits are re-split
into performance-shaped matches and dashes; anything else is kept as-is. -/
def repairToken (t : String) : List String :=
  if t = "-" ∨ t = "--" ∨ simpleValueCheck t then
    if t = "--" then ["-", "-"] else [t]
  else if t.toList.any Char.isDigit then repairScan t.toList
  else [t]

/-- Decimal digits to a natural number. -/
def digitsToNat (ds : List Char) : Nat :=
  ds.foldl (fun acc c => 10 * acc + (c.toNat - '0'.toNat)) 0

/-- JS `parseInt(s)` (radix 10, as applied to the extractor's tokens): skip
leading whitespace, optional sign, then the longest leading digit run; `NaN`
(here `none`) when no digit follows.  Everything after the digit run —
including a fractional part — is ignored. -/
def jsParseInt (s : String) : Option Int :=
  let cs := s.toList.dropWhile Char.isWhitespace
  match cs with
  | '-' :: rest =>
    let ds := rest.takeWhile Char.isDigit
    if ds.isEmpty then none else some (-(digitsToNat ds : Int))
  | '+' :: rest =>
    let ds := rest.takeWhile Char.isDigit
    if ds.isEmpty then none else some (digitsToNat ds : Int)
  | _ =>
    let ds := cs.takeWhile Char.isDigit
    if ds.isEmpty then none else some (digitsToNat ds : Int)

/-- Source function `parsePerformanceValue(value)` (index.js lines 390–399): `null` for a dash
or anything not matching `/^[\d:.]+$/`. -/
def parsePerformanceValue (value : String) : Option String :=
  if value = "" ∨ value = "-" then none
  else if value.toList.all fun c => c.isDigit ∨ c = ':' ∨ c = '.' then some value
  else none

/-- The result object `{points, performances, events}` of
`parseCrossReferencedRow`; `points` is `none` when `pointsPosition` is
neither `left` nor `right` (the source leaves it `null` then). -/
structure RowResult where
  points : Option Int
  performances : List (Option String)
  events : List String
deriving Repr, DecidableEq

/-- Source function `parseCrossReferencedRow(line, eventHeaders, pointsPosition)`
(index.js lines 287–384). -/
def parseCrossReferencedRow (line : String) (eventHeaders : List String)
    (pointsPosition : String) : Option RowResult :=
  let allTokens := (splitWs line).flatMap repairToken
  if allTokens.isEmpty then none
  else
    let checked : Option (Option Int × List String) :=
      if pointsPosition = "left" then
        match jsParseInt (allTokens.headD "") with
        | none => none
        | some n => if n < 0 ∨ 1500 < n then none else some (some n, allTokens.tail)
      else if pointsPosition = "right" then
        match jsParseInt (allTokens.getLastD "") with
        | none => none
        | some n => if n < 0 ∨ 1500 < n then none else some (some n, allTokens.dropLast)
      else some (none, [])
    match checked with
    | none => none
    | some (points, performanceValues) =>
      some { points := points
             performances := (List.range eventHeaders.length).map fun i =>
               match performanceValues.get? i with
               | some v => parsePerformanceValue v
               | none => none
             events := eventHeaders }

/-- Claim C6, counterexample: the points token is parsed with JS `parseInt`, not
a strict integer parse: on the line `"1200.50 10.50"` with `pointsPosition =
"left"` the fractional token `"1200.50"` yields points `1200` and the row is
kept, where the claim requires the whole row to be discarded. -/
theorem parseCrossReferencedRow_fractional_points :
    parseCrossReferencedRow "1200.50 10.50" ["100m"] "left" =
      some ⟨some 1200, [some "10.50"], ["100m"]⟩ := by decide

/-- Claim C6, amended: for every data line whose repaired token list is
non-empty, the first token (`pointsPosition = "left"`) or last token
(`"right"`) is parsed with JS `parseInt` semantics (longest leading integer
prefix; a fractional part is truncated, not rejected); the row is discarded
exactly when that parse yields no integer or a value outside `[0, 1500]`;
otherwise the remaining tokens are zipped positionally onto the event headers
with an absent performance for a dash or missing token. -/
theorem parseCrossReferencedRow_points (line : String) (headers : List String)
    (toks : List String) (heq : (splitWs line).flatMap repairToken = toks)
    (hne : toks ≠ []) :
    (∀ n : Int, jsParseInt (toks.headD "") = some n → 0 ≤ n → n ≤ 1500 →
      parseCrossReferencedRow line headers "left" =
        some ⟨some n,
          (List.range headers.length).map fun i =>
            match toks.tail.get? i with
            | some v => parsePerformanceValue v
            | none => none,
          headers⟩) ∧
    (jsParseInt (toks.headD "") = none →
      parseCrossReferencedRow line headers "left" = none) ∧
    (∀ n : Int, jsParseInt (toks.headD "") = some n → (n < 0 ∨ 1500 < n) →
      parseCrossReferencedRow line headers "left" = none) ∧
    (∀ n : Int, jsParseInt (toks.getLastD "") = some n → 0 ≤ n → n ≤ 1500 →
      parseCrossReferencedRow line headers "right" =
        some ⟨some n,
          (List.range headers.length).map fun i =>
            match toks.dropLast.get? i with
            | some v => parsePerformanceValue v
            | none => none,
          headers⟩) ∧
    (jsParseInt (toks.getLastD "") = none →
      parseCrossReferencedRow line headers "right" = none) ∧
    (∀ n : Int, jsParseInt (toks.getLastD "") = some n → (n < 0 ∨ 1500 < n) →
      parseCrossReferencedRow line headers "right" = none) := by
  have hemp : toks.isEmpty = false := by simpa [List.isEmpty_iff] using hne
  refine ⟨?_, ?_, ?_, ?_, ?_, ?_⟩
  · intro n hn h0 h1500
    have hrange : ¬(n < 0 ∨ 1500 < n) := by omega
    rw [List.headD_eq_head?] at hn
    simp [parseCrossReferencedRow, heq, hemp, hn, hrange]
  · intro hn
    rw [List.headD_eq_head?] at hn
    simp [parseCrossReferencedRow, heq, hemp, hn]
  · intro n hn hrange
    rw [List.headD_eq_head?] at hn
    simp [parseCrossReferencedRow, heq, hemp, hn, hrange]
  · intro n hn h0 h1500
    have hrange : ¬(n < 0 ∨ 1500 < n) := by omega
    rw [List.getLastD_eq_getLast?] at hn
    simp [parseCrossReferencedRow, heq, hemp, hn, hrange]
  · intro hn
    rw [List.getLastD_eq_getLast?] at hn
    simp [parseCrossReferencedRow, heq, hemp, hn]
  · intro n hn hrange
    rw [List.getLastD_eq_getLast?] at hn
    simp [parseCrossReferencedRow, heq, hemp, hn, hrange]

theorem parseCrossReferencedRow_points_witness :
    (splitWs "1200 10.50 - 21.34").flatMap repairToken =
      [ "1200", "10.50", "-", "21.34" ] ∧
    parseCrossReferencedRow "1200 10.50 - 21.34" [ "100m", "200m", "300m" ] "left" =
      some ⟨some 1200, [some "10.50", none, some "21.34"], [ "100m", "200m", "300m" ]⟩ :=
  ⟨by decide,
   ((parseCrossReferencedRow_points "1200 10.50 - 21.34" [ "100m", "200m", "300m" ]
       [ "1200", "10.50", "-", "21.34" ] (by decide) (by decide)).1
     1200 (by decide) (by decide) (by decide)).trans (by decide)⟩

/-! ## Split generation (`calculateCustomSplits`, part_003 lines 1992–2055;
`calculateSmartSplits`, part_004 lines 944–1011) -/

/-- The `{ metres, value, unit }` split-interval display record. -/
structure IntervalInfo where
  metres : ℚ
  value : ℚ
  unit : String
deriving Repr, DecidableEq

/-- One split-table row.  The distance labels are modelled by their numeric
value (`parseFloat(x.toFixed(2))`, i.e. `toFixed2`) and unit, just before
string interpolation. -/
structure SplitRow where
  distanceLabelValue : ℚ
  splitDistanceLabelValue : ℚ
  labelUnit : String
  splitTime : ℚ
  time : ℚ
deriving Repr, DecidableEq

theorem splitLoop_measure_decrease (d i current : ℚ) (hc : current < d) (hi : 0 < i) :
    (⌈(d - (if d < current + i then d else current + i)) / i⌉).toNat <
      (⌈(d - current) / i⌉).toNat := by
  have hpos : 0 < (d - current) / i := div_pos (by linarith) hi
  have hceil : 0 < ⌈(d - current) / i⌉ := Int.ceil_pos.mpr hpos
  by_cases hlt : d < current + i
  · rw [if_pos hlt, sub_self, zero_div, Int.ceil_zero]
    omega
  · rw [if_neg hlt]
    have heq : (d - (current + i)) / i = (d - current) / i - 1 := by
      rw [show d - (current + i) = d - current - i from by ring, sub_div,
        div_self (ne_of_gt hi)]
    rw [heq, Int.ceil_sub_one]
    omega

/-- The shared `while (currentDistanceMetres < distanceMetres)` accumulation
loop of `calculateCustomSplits` and `calculateSmartSplits`: advance by the
interval, cap the final step at the total distance, emit the row built by
`mkRow next prevDistance cumulativeTime prevTime`.  The `0 < i` guard is part
of the loop's domain of definition: the JS loop does not terminate on a
non-positive interval. -/
def splitLoop {α : Type} (mkRow : ℚ → ℚ → ℚ → ℚ → α)
    (d pace i prevD prevT current : ℚ) : List α :=
  if h : current < d ∧ 0 < i then
    let next := if d < current + i then d else current + i
    let cumulativeTime := next / 1000 * pace
    mkRow next prevD cumulativeTime prevT ::
      splitLoop mkRow d pace i next cumulativeTime next
  else []
termination_by (⌈(d - current) / i⌉).toNat
decreasing_by exact splitLoop_measure_decrease d i current h.1 h.2

/-- The per-row label computation of `calculateCustomSplits`: with a custom
interval the labels are in interval units, otherwise in kilometres. -/
def customSplitRow (i : ℚ) (info : Option IntervalInfo)
    (current prevD cumulativeTime prevT : ℚ) : SplitRow :=
  { distanceLabelValue :=
      match info with
      | some pi => toFixed2 (current / i * pi.value)
      | none => toFixed2 (current / 1000)
    splitDistanceLabelValue :=
      match info with
      | some pi => toFixed2 ((current - prevD) / i * pi.value)
      | none => toFixed2 ((current - prevD) / 1000)
    labelUnit := match info with | some pi => pi.unit | none => "km"
    splitTime := cumulativeTime - prevT
    time := cumulativeTime }

/-- Source method `calculateCustomSplits(distanceMetres, pacePerKm, eventConfig,
splitIntervalMetres, paceIntervalInfo)` (part_003 lines 1992–2055); the
`eventConfig` parameter is unused by the source body. -/
def calculateCustomSplits (distanceMetres pacePerKm : ℚ) (eventConfig : Unit)
    (splitIntervalMetres : ℚ) (paceIntervalInfo : Option IntervalInfo) :
    List SplitRow :=
  splitLoop (customSplitRow splitIntervalMetres paceIntervalInfo)
    distanceMetres pacePerKm splitIntervalMetres 0 0 0

theorem floor_div_ten (a : ℚ) : ⌊a / 10⌋ = ⌊a⌋ / 10 := by
  have h1 : (⌊a⌋ / 10) * 10 ≤ ⌊a⌋ := by omega
  have h2 : ⌊a⌋ + 1 ≤ (⌊a⌋ / 10 + 1) * 10 := by omega
  rw [Int.floor_eq_iff]
  constructor
  · rw [le_div_iff (by norm_num : (0:ℚ) < 10)]
    calc ((⌊a⌋ / 10 : ℤ) : ℚ) * 10 ≤ ((⌊a⌋ : ℤ) : ℚ) := by exact_mod_cast h1
      _ ≤ a := Int.floor_le a
  · rw [div_lt_iff (by norm_num : (0:ℚ) < 10)]
    have h3 : ((⌊a⌋ : ℤ) : ℚ) + 1 ≤ (((⌊a⌋ / 10 : ℤ) : ℚ) + 1) * 10 := by
      exact_mod_cast h2
    linarith [Int.lt_floor_add_one a]

theorem adjust_measure_decrease (d i : ℚ) (hi : 0 < i) (h : 100 ≤ ⌊d / i⌋) :
    (⌊d / (i * 10)⌋).toNat < (⌊d / i⌋).toNat := by
  have heq : d / (i * 10) = d / i / 10 := by rw [div_div]
  rw [heq, floor_div_ten]
  omega

/-- The interval-growth loop of `calculateSmartSplits`:
`while (numSplits >= 100) { splitIntervalMetres *= 10;
adjustedIntervalInfo.value *= 10; numSplits = floor(d / interval) }`.
The `0 < i` guard is part of the loop's domain of definition (the JS loop
does not terminate at `i = 0` with `d > 0`, where `floor(d/0) = Infinity`). -/
def adjustSplitInterval (d i v : ℚ) : ℚ × ℚ :=
  if h : 0 < i ∧ 100 ≤ ⌊d / i⌋ then adjustSplitInterval d (i * 10) (v * 10)
  else (i, v)
termination_by (⌊d / i⌋).toNat
decreasing_by exact adjust_measure_decrease d i h.1 h.2

/-- Source function `calculateSmartSplits(distanceMetres, pacePerKm, eventConfig,
initialSplitIntervalMetres, splitIntervalInfo)` (part_004 lines 944–1011):
grow the interval tenfold while the whole-split count is at least 100, then
run the shared accumulation loop.  The `eventConfig` parameter and the
`multiplier` debug counter are unused for the result. -/
def calculateSmartSplits (distanceMetres pacePerKm : ℚ) (eventConfig : Unit)
    (initialSplitIntervalMetres : ℚ) (splitIntervalInfo : IntervalInfo) :
    List SplitRow :=
  let adjusted :=
    adjustSplitInterval distanceMetres initialSplitIntervalMetres splitIntervalInfo.value
  splitLoop
    (fun current prevD cumulativeTime prevT =>
      { distanceLabelValue := toFixed2 (current / adjusted.1 * adjusted.2)
        splitDistanceLabelValue := toFixed2 ((current - prevD) / adjusted.1 * adjusted.2)
        labelUnit := splitIntervalInfo.unit
        splitTime := cumulativeTime - prevT
        time := cumulativeTime })
    distanceMetres pacePerKm adjusted.1 0 0 0

/-- Advancing the loop by one step reduces the remaining-splits measure by
exactly one. -/
theorem splitLoop_measure_next (d i current : ℚ) (hc : current < d) (hi : 0 < i) :
    (⌈(d - (if d < current + i then d else current + i)) / i⌉).toNat =
      (⌈(d - current) / i⌉).toNat - 1 ∧ 1 ≤ (⌈(d - current) / i⌉).toNat := by
  have hpos : 0 < (d - current) / i := div_pos (by linarith) hi
  have hceil : 0 < ⌈(d - current) / i⌉ := Int.ceil_pos.mpr hpos
  by_cases hlt : d < current + i
  · rw [if_pos hlt, sub_self, zero_div, Int.ceil_zero]
    have hone : ⌈(d - current) / i⌉ = 1 := by
      rw [Int.ceil_eq_iff]
      constructor
      · simpa using hpos
      · push_cast
        rw [div_le_one hi]
        linarith
    rw [hone]
    omega
  · rw [if_neg hlt]
    have heq : (d - (current + i)) / i = (d - current) / i - 1 := by
      rw [show d - (current + i) = d - current - i from by ring, sub_div,
        div_self (ne_of_gt hi)]
    rw [heq, Int.ceil_sub_one]
    omega

/-- The number of rows the shared loop emits from position `current` is the
remaining-splits count `⌈(d - current) / i⌉`. -/
theorem splitLoop_length_aux {α : Type} (mkRow : ℚ → ℚ → ℚ → ℚ → α)
    (d pace i : ℚ) (hi : 0 < i) :
    ∀ (n : ℕ) (prevD prevT current : ℚ), (⌈(d - current) / i⌉).toNat = n →
      (splitLoop mkRow d pace i prevD prevT current).length = n := by
  intro n
  induction n using Nat.strong_induction_on with
  | _ n ih =>
    intro prevD prevT current hn
    by_cases hc : current < d
    · obtain ⟨hnext, hone⟩ := splitLoop_measure_next d i current hc hi
      rw [splitLoop, dif_pos ⟨hc, hi⟩, List.length_cons,
        ih (n - 1) (by omega) _ _ _ (by rw [hnext, hn])]
      omega
    · rw [splitLoop, dif_neg (fun hh => hc hh.1), List.length_nil]
      have hle : (d - current) / i ≤ 0 :=
        div_nonpos_of_nonpos_of_nonneg (by linarith) (le_of_lt hi)
      have : ⌈(d - current) / i⌉ ≤ 0 := Int.ceil_le.mpr (by exact_mod_cast hle)
      omega

theorem splitLoop_length {α : Type} (mkRow : ℚ → ℚ → ℚ → ℚ → α)
    (d pace i prevD prevT : ℚ) (hi : 0 < i) :
    (splitLoop mkRow d pace i prevD prevT 0).length = (⌈d / i⌉).toNat := by
  have := splitLoop_length_aux mkRow d pace i hi ((⌈(d - 0) / i⌉).toNat)
    prevD prevT 0 rfl
  simpa using this

/-- Specification of the interval-growth loop: the adjusted interval is
positive, at least the initial one, and leaves fewer than 100 whole splits. -/
theorem adjustSplitInterval_spec (d : ℚ) :
    ∀ (n : ℕ) (i v : ℚ), (⌊d / i⌋).toNat = n → 0 < i →
      0 < (adjustSplitInterval d i v).1 ∧ i ≤ (adjustSplitInterval d i v).1 ∧
      ⌊d / (adjustSplitInterval d i v).1⌋ < 100 := by
  intro n
  induction n using Nat.strong_induction_on with
  | _ n ih =>
    intro i v hn hi
    by_cases h : 100 ≤ ⌊d / i⌋
    · rw [adjustSplitInterval, dif_pos ⟨hi, h⟩]
      have hdec : (⌊d / (i * 10)⌋).toNat < n := by
        rw [← hn]
        exact adjust_measure_decrease d i hi h
      obtain ⟨g1, g2, g3⟩ := ih _ hdec (i * 10) (v * 10) rfl (by positivity)
      exact ⟨g1, le_trans (by linarith) g2, g3⟩
    · rw [adjustSplitInterval, dif_neg (fun hh => h hh.2)]
      exact ⟨hi, le_refl i, lt_of_not_le h⟩

/-- The row count of `calculateSmartSplits` in terms of the adjusted
interval. -/
theorem calculateSmartSplits_length (d pace i : ℚ) (sinfo : IntervalInfo)
    (hpos : 0 < (adjustSplitInterval d i sinfo.value).1) :
    (calculateSmartSplits d pace () i sinfo).length =
      (⌈d / (adjustSplitInterval d i sinfo.value).1⌉).toNat := by
  simp only [calculateSmartSplits]
  exact splitLoop_length _ _ _ _ _ _ hpos

/-- Claim C7, counterexample: with a 10 m interval over 995 m, the whole-split
count is `⌊99.5⌋ = 99 < 100`, so no adjustment happens, yet the generated
table has exactly 100 rows (`⌈99.5⌉ = 100`) — not fewer than 100. -/
theorem calculateSmartSplits_100_rows :
    (calculateSmartSplits 995 300 () 10 ⟨10, 10, "m"⟩).length = 100 := by
  have hfloor : ⌊(995 : ℚ) / 10⌋ = 99 := by
    rw [Int.floor_eq_iff]
    norm_num
  have hadj : adjustSplitInterval 995 10 10 = (10, 10) := by
    rw [adjustSplitInterval, dif_neg]
    rw [hfloor]
    norm_num
  rw [calculateSmartSplits_length 995 300 10 ⟨10, 10, "m"⟩ (by rw [hadj]; norm_num)]
  rw [hadj]
  have hceil : ⌈(995 : ℚ) / 10⌉ = 100 := by
    rw [Int.ceil_eq_iff]
    norm_num
  rw [hceil]
  rfl

/-- Claim C7, amended: for every distance > 0 and initial interval > 0,
`calculateSmartSplits` yields at most 100 rows (exactly 100 is attainable,
see the counterexample; more than 100 is not): the interval-growth loop stops
as soon as `⌊d/i⌋ < 100`, and the generated table has `⌈d/i⌉ ≤ ⌊d/i⌋ + 1 ≤
100` rows.  In particular a 1 m interval over 100,000 m collapses to a
10,000 m interval producing 10 rows (see the witness). -/
theorem calculateSmartSplits_le_100 (d pace i : ℚ) (sinfo : IntervalInfo)
    (hd : 0 < d) (hi : 0 < i) :
    (calculateSmartSplits d pace () i sinfo).length ≤ 100 := by
  obtain ⟨g1, _, g3⟩ := adjustSplitInterval_spec d ((⌊d / i⌋).toNat) i sinfo.value rfl hi
  rw [calculateSmartSplits_length d pace i sinfo g1]
  have hle : ⌈d / (adjustSplitInterval d i sinfo.value).1⌉ ≤ 100 := by
    have := Int.ceil_le_floor_add_one (d / (adjustSplitInterval d i sinfo.value).1)
    omega
  omega

theorem calculateSmartSplits_le_100_witness :
    (0 : ℚ) < 100000 ∧ (0 : ℚ) < 1 ∧
    (calculateSmartSplits 100000 240 () 1 ⟨1, 1, "m"⟩).length ≤ 100 ∧
    (calculateSmartSplits 100000 240 () 1 ⟨1, 1, "m"⟩).length = 10 := by
  refine ⟨by norm_num, by norm_num,
    calculateSmartSplits_le_100 100000 240 1 ⟨1, 1, "m"⟩ (by norm_num) (by norm_num), ?_⟩
  have hstep : ∀ a b : ℚ, 0 < a → 100 ≤ ⌊(100000 : ℚ) / a⌋ →
      adjustSplitInterval 100000 a b = adjustSplitInterval 100000 (a * 10) (b * 10) := by
    intro a b ha hfl
    rw [adjustSplitInterval, dif_pos ⟨ha, hfl⟩]
  have f1 : ⌊(100000 : ℚ) / 1⌋ = 100000 := by rw [Int.floor_eq_iff] <;> norm_num
  have f2 : ⌊(100000 : ℚ) / 10⌋ = 10000 := by rw [Int.floor_eq_iff] <;> norm_num
  have f3 : ⌊(100000 : ℚ) / 100⌋ = 1000 := by rw [Int.floor_eq_iff] <;> norm_num
  have f4 : ⌊(100000 : ℚ) / 1000⌋ = 100 := by rw [Int.floor_eq_iff] <;> norm_num
  have f5 : ⌊(100000 : ℚ) / 10000⌋ = 10 := by rw [Int.floor_eq_iff] <;> norm_num
  have hadj : adjustSplitInterval 100000 1 1 = (10000, 10000) := by
    rw [hstep 1 1 (by norm_num) (by rw [f1]; norm_num)]
    norm_num
    rw [hstep 10 10 (by norm_num) (by rw [f2]; norm_num)]
    norm_num
    rw [hstep 100 100 (by norm_num) (by rw [f3]; norm_num)]
    norm_num
    rw [hstep 1000 1000 (by norm_num) (by rw [f4])]
    norm_num
    rw [adjustSplitInterval, dif_neg]
    intro hh
    rw [f5] at hh
    omega
  rw [calculateSmartSplits_length 100000 240 1 ⟨1, 1, "m"⟩ (by rw [hadj]; norm_num)]
  rw [hadj]
  rw [show (100000 : ℚ) / 10000 = 10 by norm_num]
  rw [show ⌈(10 : ℚ)⌉ = 10 from Int.ceil_intCast 10]
  rfl

/-- Claim C10: both split loops terminate for every positive distance and
interval, with the row count (one row per loop iteration) equal to
`⌈distance / interval⌉` for `calculateCustomSplits` and bounded by the same
for `calculateSmartSplits` (whose interval-growth loop terminates because the
interval grows tenfold each pass, strictly shrinking `⌊d/i⌋`). -/
theorem split_loops_terminate (d pace i : ℚ) (info : Option IntervalInfo)
    (sinfo : IntervalInfo) (hd : 0 < d) (hi : 0 < i) :
    (calculateCustomSplits d pace () i info).length = (⌈d / i⌉).toNat ∧
    (calculateSmartSplits d pace () i sinfo).length ≤ (⌈d / i⌉).toNat := by
  constructor
  · rw [calculateCustomSplits, splitLoop_length _ _ _ _ _ _ hi]
  · obtain ⟨g1, g2, _⟩ := adjustSplitInterval_spec d ((⌊d / i⌋).toNat) i sinfo.value rfl hi
    rw [calculateSmartSplits_length d pace i sinfo g1]
    have hmono : d / (adjustSplitInterval d i sinfo.value).1 ≤ d / i :=
      div_le_div_of_nonneg_left (le_of_lt hd) hi g2
    have := Int.ceil_le_ceil hmono
    omega

theorem split_loops_terminate_witness :
    (0 : ℚ) < 995 ∧ (0 : ℚ) < 10 ∧
    (calculateCustomSplits 995 300 () 10 none).length = (⌈(995 : ℚ) / 10⌉).toNat ∧
    (calculateSmartSplits 995 300 () 10 ⟨10, 10, "m"⟩).length ≤ (⌈(995 : ℚ) / 10⌉).toNat :=
  ⟨by norm_num, by norm_num,
    (split_loops_terminate 995 300 10 none ⟨10, 10, "m"⟩ (by norm_num) (by norm_num)).1,
    (split_loops_terminate 995 300 10 none ⟨10, 10, "m"⟩ (by norm_num) (by norm_num)).2⟩

end AthleticsUtils
